import Mathlib

/-!
Verification development for the face/eye-monitoring repository
(industry_projects/facedetection).  The definitions below are a shallow
embedding of the per-frame track-reconciliation and presence-timing engine
of face_analysis.py: timestamps are modelled as rationals, Python dicts as
functions into Option (or association lists where iteration order matters),
and Python int() truncation as an explicit operation.
-/

namespace FaceDetection

/-- Python int() applied to a real-valued quantity truncates toward zero. -/
def pyInt (q : ℚ) : ℤ := if q < 0 then ⌈q⌉ else ⌊q⌋

/-! ## Presence timer engine (update_person_timer, face_analysis.py lines 16-70)

PERSON_TIMERS maps a person name to a dict with keys first_seen, last_seen,
paused_at and accumulated_time.  The code reads paused_at and
accumulated_time with dict .get and tests key presence with `in`, so both
are modelled as Option values (none = key absent). -/

structure PersonTimer where
  first_seen : ℚ
  last_seen : ℚ
  paused_at : Option ℚ
  accumulated_time : Option ℤ
  deriving DecidableEq, Repr

abbrev PersonTimers := String → Option PersonTimer

def PERSON_TIMERS_empty : PersonTimers := fun _ => none

def setTimer (m : PersonTimers) (k : String) (v : PersonTimer) : PersonTimers :=
  fun x => if x = k then some v else m x

/-- Seconds after which an absent person's timer is reset. -/
def RESET_THRESHOLD : ℚ := 10

/-- Fresh timer entry written by both initialisation paths of
update_person_timer (absence reset and first sighting). -/
def freshTimer (now : ℚ) : PersonTimer :=
  { first_seen := now, last_seen := now, paused_at := none,
    accumulated_time := some 0 }

/-- update_person_timer from face_analysis.py: updates the timer map for
person_name at current_time and returns the seconds the person has been
visible.  Returns the updated map together with the returned value. -/
def update_person_timer (timers : PersonTimers) (person_name : String)
    (current_time : ℚ) (is_timer_paused : Bool) : PersonTimers × ℤ :=
  if person_name = "unknown" ∨ person_name = "" then (timers, 0)
  else
    match timers person_name with
    | some t =>
      if current_time - t.last_seen > RESET_THRESHOLD then
        (setTimer timers person_name (freshTimer current_time), 0)
      else
        let t1 := { t with last_seen := current_time }
        if is_timer_paused then
          let snap := some (pyInt (current_time - t1.first_seen))
          let t2 :=
            if t1.paused_at = none then
              let t' :=
                if t1.accumulated_time = none then
                  { t1 with accumulated_time := snap }
                else t1
              { t' with paused_at := some current_time }
            else t1
          (setTimer timers person_name t2, t2.accumulated_time.getD 0)
        else
          let t2 :=
            match t1.paused_at with
            | some p =>
              { t1 with first_seen := t1.first_seen + (current_time - p), paused_at := none }
            | none => t1
          (setTimer timers person_name t2, pyInt (current_time - t2.first_seen))
    | none => (setTimer timers person_name (freshTimer current_time), 0)

/-! ## Detection-to-eye-state association (FaceAnalysis.match_eye_openness,
face_analysis.py lines 134-165) -/

/-- An axis-aligned bounding box (x1, y1, x2, y2), coordinates as rationals. -/
structure Box where
  x1 : ℚ
  y1 : ℚ
  x2 : ℚ
  y2 : ℚ
  deriving DecidableEq, Repr

/-- One entry of the eye-state detector output faces_data. -/
structure FaceData where
  bbox : Box
  left_eye_open : Bool
  right_eye_open : Bool
  deriving DecidableEq, Repr

def boxArea (b : Box) : ℚ := (b.x2 - b.x1) * (b.y2 - b.y1)

/-- The guard `ix1 < ix2 and iy1 < iy2` of match_eye_openness: the two boxes
have a (strictly positive) intersection. -/
def boxIntersects (b e : Box) : Bool :=
  decide (max b.x1 e.x1 < min b.x2 e.x2) && decide (max b.y1 e.y1 < min b.y2 e.y2)

/-- Intersection area of two boxes, as computed inside the guard. -/
def interArea (b e : Box) : ℚ :=
  (min b.x2 e.x2 - max b.x1 e.x1) * (min b.y2 e.y2 - max b.y1 e.y1)

/-- Denominator of the IoU ratio: box_area + bbox_area - inter_area. -/
def iouDenom (b e : Box) : ℚ := boxArea b + boxArea e - interArea b e

/-- IoU as computed by match_eye_openness for an intersecting pair. -/
def iou (b e : Box) : ℚ := interArea b e / iouDenom b e

/-- Python max(ious, key=first component): returns the first pair whose key is
maximal (later pairs replace the best only when strictly greater). -/
def pyMaxByFst (x : ℚ × FaceData) (xs : List (ℚ × FaceData)) : ℚ × FaceData :=
  xs.foldl (fun acc y => if y.1 > acc.1 then y else acc) x

/-- Final step of match_eye_openness: matched_data stays None when the ious
list is empty, and otherwise is the maximum-IoU entry if its IoU exceeds
0.4. -/
def acceptBest (ious : List (ℚ × FaceData)) : Option FaceData :=
  match ious with
  | [] => none
  | x :: xs =>
    if (pyMaxByFst x xs).1 > 2/5 then some (pyMaxByFst x xs).2 else none

/-- FaceAnalysis.match_eye_openness: associates a track bbox with the
eye-state detection of maximum IoU, accepted only above the 0.4 threshold.
eye_opennesses is none when the detector returned None or a dict without
faces_data. -/
def match_eye_openness (eye_opennesses : Option (List FaceData)) (bbox : Box) :
    Option FaceData :=
  match eye_opennesses with
  | none => none
  | some faces =>
    acceptBest (faces.filterMap fun fd =>
      if boxIntersects bbox fd.bbox then some (iou bbox fd.bbox, fd) else none)

/-! ## Track records and the per-frame reconciliation (FaceAnalysis.get,
face_analysis.py lines 167-301) -/

/-- Per-track record kept in FaceAnalysis.trackableObjects.  Eye-state
strings take the values "Open", "Closed" and "unknown" as in the source. -/
structure TrackableObject where
  objectID : ℕ
  bbox : Box
  kps : List (ℚ × ℚ)
  live : Bool
  lost_count : ℕ
  recognized : Bool
  name : String
  pinfl : String
  score : ℚ
  image_path : String
  age : ℤ
  gender : ℕ
  left_eye_open : String
  right_eye_open : String
  cumulative_closed_time : ℚ
  timer_paused : Bool
  last_eye_check_time : Option ℚ
  deriving DecidableEq, Repr

/-- Modelled from the spec: TrackableObject construction lives in the
external facelibuz package (not part of this repository).  A fresh record is
unrecognized with name "unknown" and score 0 (§3: recognized is monotonic
from false; draw_on compares name against 'unknown'), its eye-closure
debounce starts in the Open state with cumulative_closed_time 0 and
timer_paused false, and last_eye_check_time is uninitialized (§4.3: it is
initialized to now the first time the track is evaluated). -/
def newTrackableObject (id : ℕ) : TrackableObject :=
  { objectID := id, bbox := ⟨0, 0, 0, 0⟩, kps := [], live := false,
    lost_count := 0, recognized := false, name := "unknown", pinfl := "",
    score := 0, image_path := "", age := 0, gender := 2,
    left_eye_open := "unknown", right_eye_open := "unknown",
    cumulative_closed_time := 0, timer_paused := false,
    last_eye_check_time := none }

/-- Eye-closure debounce step, face_analysis.py lines 254-288: sets the
eye-state strings and, when an eye-state detection matched this frame,
advances the cumulative-closure accumulator and the pause flag. -/
def eyeUpdate (t : TrackableObject) (eyeData : Option FaceData) (now : ℚ) :
    TrackableObject :=
  let t0 := { t with left_eye_open := "unknown", right_eye_open := "unknown" }
  match eyeData with
  | none => t0
  | some d =>
    let leftS := if d.left_eye_open then "Open" else "Closed"
    let rightS := if d.right_eye_open then "Open" else "Closed"
    let t1 := { t0 with left_eye_open := leftS, right_eye_open := rightS }
    let any_eye_closed := !d.left_eye_open || !d.right_eye_open
    let lastCheck := t1.last_eye_check_time.getD now
    let time_elapsed := now - lastCheck
    let t2 :=
      if any_eye_closed then
        let c := t1.cumulative_closed_time + time_elapsed
        let pausedNew := if c ≥ 3 then true else t1.timer_paused
        { t1 with cumulative_closed_time := c, timer_paused := pausedNew }
      else
        { t1 with timer_paused := false, cumulative_closed_time := 0 }
    { t2 with last_eye_check_time := some now }

/-- Iterated eye-closure debounce over a list of (matched detection, time)
frames. -/
def eyeRun (t : TrackableObject) (frames : List (FaceData × ℚ)) :
    TrackableObject :=
  frames.foldl (fun s f => eyeUpdate s (some f.1) f.2) t

/-- Result of find_face for a track's embedding: the best gallery match
above the recognition threshold, or none. -/
structure Person where
  name : String
  score : ℚ
  pinfl : String
  image_path : String
  deriving DecidableEq, Repr

/-- Distinct-sightings bookkeeping of face_analysis.py lines 238-245:
record_people maps a name to the wall-clock time of its last qualifying
recognition (none = never recognized), seen_people to its sighting count
(Python reads it with .get(name, 0), so absent keys count as 0). -/
def recordSighting (record_people : String → Option ℚ)
    (seen_people : String → ℕ) (name : String) (now : ℚ) :
    (String → Option ℚ) × (String → ℕ) :=
  match record_people name with
  | some prev =>
    let sp :=
      if now - prev > 15 then
        fun x => if x = name then seen_people name + 1 else seen_people x
      else seen_people
    (fun x => if x = name then some now else record_people x, sp)
  | none =>
    (fun x => if x = name then some now else record_people x,
     fun x => if x = name then seen_people name + 1 else seen_people x)

/-- Per-identity projection of recordSighting: the (last recognition time,
sighting count) pair kept for one name. -/
def sightStep : Option ℚ × ℕ → ℚ → Option ℚ × ℕ
  | (some prev, c), now => (some now, if now - prev > 15 then c + 1 else c)
  | (none, c), now => (some now, c + 1)

/-- Iterated sighting bookkeeping for one identity over a list of qualifying
recognition times. -/
def sightRun (s : Option ℚ × ℕ) (ts : List ℚ) : Option ℚ × ℕ :=
  ts.foldl sightStep s

/-- Times at which the sighting counter increments, for one identity, given
the stored last-recognition time and the list of recognition times. -/
def incTimes : Option ℚ → List ℚ → List ℚ
  | _, [] => []
  | none, t :: ts => t :: incTimes (some t) ts
  | some p, t :: ts =>
    if t - p > 15 then t :: incTimes (some t) ts else incTimes (some t) ts

/-- Mutable per-frame state of FaceAnalysis relevant to reconciliation:
the track registry (an ordered dict, modelled as an association list) and
the sighting maps. -/
structure FaceAnalysisState where
  trackableObjects : List (ℕ × TrackableObject)
  record_people : String → Option ℚ
  seen_people : String → ℕ

/-- Association-list lookup, first match wins (dict lookup). -/
def alookup : List (ℕ × TrackableObject) → ℕ → Option TrackableObject
  | [], _ => none
  | (k, v) :: rest, id => if k = id then some v else alookup rest id

/-- Dict write self.trackableObjects[objectID] = track_obj: replace in
place, or append when the key is new. -/
def upsert : List (ℕ × TrackableObject) → ℕ → TrackableObject →
    List (ℕ × TrackableObject)
  | [], id, t => [(id, t)]
  | (k, v) :: rest, id, t =>
    if k = id then (id, t) :: rest else (k, v) :: upsert rest id t

/-- One confirmed tracker object for the current frame, together with the
frame's external model outputs for it: find_face's answer for its embedding
(consulted only while the track is unrecognized) and the age/gender
estimate. -/
structure TrackedInput where
  objectID : ℕ
  bbox : Box
  kps : List (ℚ × ℚ)
  personResult : Option Person
  age : ℤ
  gender : ℕ

/-- Identity-resolution block of the reconciliation loop, face_analysis.py
lines 227-249: while the track is unrecognized, consult find_face and adopt
the match if its score strictly improves the stored one (recording the
sighting), then mark the track recognized once its score is positive. -/
def recognitionUpdate (t1 : TrackableObject) (personResult : Option Person)
    (rp : String → Option ℚ) (sp : String → ℕ) (now : ℚ) :
    TrackableObject × (String → Option ℚ) × (String → ℕ) :=
  if t1.recognized then (t1, rp, sp)
  else
    let upgraded :=
      match personResult with
      | some p =>
        if p.score > t1.score then
          let t' := { t1 with name := p.name, pinfl := p.pinfl,
                              score := p.score, image_path := p.image_path }
          let maps := recordSighting rp sp p.name now
          (t', maps.1, maps.2)
        else (t1, rp, sp)
      | none => (t1, rp, sp)
    let t2 :=
      if upgraded.1.score > 0 then { upgraded.1 with recognized := true }
      else upgraded.1
    (t2, upgraded.2.1, upgraded.2.2)

/-- Per-object body of the reconciliation loop, face_analysis.py lines
207-290: fetch or create the record, refresh geometry and liveness, attempt
identity resolution while unrecognized (with the sighting side effect), and
run the eye-closure debounce against the matched eye-state detection. -/
def processObject (st : FaceAnalysisState) (inp : TrackedInput)
    (eye_opennesses : Option (List FaceData)) (now : ℚ) : FaceAnalysisState :=
  let eyeData := match_eye_openness eye_opennesses inp.bbox
  let t0 := (alookup st.trackableObjects inp.objectID).getD
    (newTrackableObject inp.objectID)
  let t1 := { t0 with bbox := inp.bbox, kps := inp.kps, live := true,
                      lost_count := 0 }
  let step := recognitionUpdate t1 inp.personResult st.record_people
    st.seen_people now
  let t3 := { step.1 with age := inp.age, gender := inp.gender }
  let t4 := eyeUpdate t3 eyeData now
  { trackableObjects := upsert st.trackableObjects inp.objectID t4,
    record_people := step.2.1, seen_people := step.2.2 }

/-- Start of the reconciliation pass: every existing record is marked
live = False (face_analysis.py lines 204-205). -/
def markAllDead (l : List (ℕ × TrackableObject)) :
    List (ℕ × TrackableObject) :=
  l.map fun kv => (kv.1, { kv.2 with live := false })

/-- End of the reconciliation pass: records still marked live = False are
removed (face_analysis.py lines 292-299). -/
def purgeDead (l : List (ℕ × TrackableObject)) :
    List (ℕ × TrackableObject) :=
  l.filter fun kv => kv.2.live

/-- Full per-frame reconciliation of FaceAnalysis.get in tracking mode:
mark all records dead, process each confirmed tracker object, purge
unconfirmed records. -/
def processFrame (st : FaceAnalysisState) (objs : List TrackedInput)
    (eye_opennesses : Option (List FaceData)) (now : ℚ) : FaceAnalysisState :=
  let st1 : FaceAnalysisState :=
    { st with trackableObjects := markAllDead st.trackableObjects }
  let st2 := objs.foldl (fun s inp => processObject s inp eye_opennesses now) st1
  { st2 with trackableObjects := purgeDead st2.trackableObjects }

/-! ## Theorems about the presence timer engine -/

/-- C6: for an identity already in the timer map, a gap now - last_seen
strictly greater than 10 seconds makes update_person_timer reset the entry
to first_seen = last_seen = now, accumulated_time = 0, paused_at = null and
return 0, while a gap of exactly 10 seconds does not trigger the reset (the
entry keeps its first_seen and the elapsed time keeps running). -/
theorem update_absence_reset (timers : PersonTimers) (name : String)
    (pt : PersonTimer) (now : ℚ) (b : Bool)
    (hn : ¬(name = "unknown" ∨ name = "")) (ht : timers name = some pt) :
    (now - pt.last_seen > 10 →
      (update_person_timer timers name now b).1 name = some (freshTimer now) ∧
      (update_person_timer timers name now b).2 = 0) ∧
    (now - pt.last_seen = 10 → b = false → pt.paused_at = none →
      (update_person_timer timers name now b).1 name =
        some { pt with last_seen := now } ∧
      (update_person_timer timers name now b).2 =
        pyInt (now - pt.first_seen)) := by
  unfold update_person_timer
  rw [if_neg hn, ht]
  constructor
  · intro hgap
    simp only [RESET_THRESHOLD]
    rw [if_pos hgap]
    simp [setTimer]
  · intro hgap hb hp
    subst hb
    simp only [RESET_THRESHOLD]
    rw [if_neg (by rw [hgap]; norm_num)]
    simp [hp, setTimer]

/-- Witness for update_absence_reset at a concrete input: an entry last
seen at time 1 queried at time 12 (gap 11 > 10) is reset, and queried at
time 11 (gap exactly 10) keeps running from first_seen = 0. -/
theorem update_absence_reset_witness :
    ((update_person_timer
        (setTimer PERSON_TIMERS_empty "alice" ⟨0, 1, none, some 0⟩)
        "alice" 12 false).2 = 0) ∧
    ((update_person_timer
        (setTimer PERSON_TIMERS_empty "alice" ⟨0, 1, none, some 0⟩)
        "alice" 11 false).2 = pyInt 11) := by
  refine ⟨((update_absence_reset _ "alice" ⟨0, 1, none, some 0⟩ 12 false
      (by decide) (by simp [setTimer])).1 (by norm_num)).2, ?_⟩
  have h := ((update_absence_reset
      (setTimer PERSON_TIMERS_empty "alice" ⟨0, 1, none, some 0⟩) "alice"
      ⟨0, 1, none, some 0⟩ 11 false
      (by decide) (by simp [setTimer])).2 (by norm_num) rfl rfl).2
  rw [h]
  norm_num

/-- C5: for an identity paused at time p (paused_at = some p), a call with
is_paused = false within the absence gap shifts first_seen forward by the
paused duration now - p, clears paused_at, and returns the truncated
elapsed time p - first_seen, i.e. exactly the elapsed time at the moment of
pausing: the paused interval is excluded. -/
theorem update_resume_continuity (timers : PersonTimers) (name : String)
    (pt : PersonTimer) (p now : ℚ)
    (hn : ¬(name = "unknown" ∨ name = "")) (ht : timers name = some pt)
    (hp : pt.paused_at = some p) (hgap : ¬(now - pt.last_seen > 10)) :
    (update_person_timer timers name now false).1 name =
      some { pt with first_seen := pt.first_seen + (now - p),
                     last_seen := now, paused_at := none } ∧
    (update_person_timer timers name now false).2 =
      pyInt (p - pt.first_seen) := by
  unfold update_person_timer
  rw [if_neg hn, ht]
  simp only [RESET_THRESHOLD]
  rw [if_neg hgap]
  have harith : now - (pt.first_seen + (now - p)) = p - pt.first_seen := by
    ring
  simp [hp, setTimer, harith]

/-- Witness for update_resume_continuity: an identity first seen at 0,
paused at 5 (elapsed 5s), resumed at 15 after a 10-second pause, yields
elapsed 5 seconds, not 15. -/
theorem update_resume_continuity_witness :
    (update_person_timer
        (setTimer PERSON_TIMERS_empty "alice" ⟨0, 14, some 5, some 0⟩)
        "alice" 15 false).1 "alice" = some ⟨0 + (15 - 5), 15, none, some 0⟩ ∧
    (update_person_timer
        (setTimer PERSON_TIMERS_empty "alice" ⟨0, 14, some 5, some 0⟩)
        "alice" 15 false).2 = pyInt 5 := by
  have h := update_resume_continuity
    (setTimer PERSON_TIMERS_empty "alice" ⟨0, 14, some 5, some 0⟩)
    "alice" ⟨0, 14, some 5, some 0⟩ 5 15
    (by simp) (by simp [setTimer]) rfl (by norm_num)
  exact ⟨h.1, by simpa using h.2⟩

/-- Timer map after the program's first call for a fresh identity "alice"
at time 0: the dead-code trace for the pause snapshot starts here. -/
def aliceTimers : PersonTimers :=
  (update_person_timer PERSON_TIMERS_empty "alice" 0 false).1

/-- C1 (code bug): every path that creates a timer entry stores
accumulated_time = 0, so the snapshot accumulated_time = now - first_seen
guarded by the key-absence test can never fire; transitioning into pause at
time 5 for an identity first seen at time 0 therefore returns 0 (the stale
initial accumulated_time), not the elapsed 5 seconds that the code's own
comment ("Just paused, save the accumulated time") and the spec promise. -/
theorem update_pause_snapshot_dead :
    aliceTimers "alice" = some (freshTimer 0) ∧
    (update_person_timer aliceTimers "alice" 5 true).2 = 0 ∧
    ((update_person_timer aliceTimers "alice" 5 true).1 "alice").map
        PersonTimer.accumulated_time = some (some 0) ∧
    pyInt (5 - 0) = 5 := by
  have hmap : aliceTimers "alice" = some (freshTimer 0) := by
    unfold aliceTimers update_person_timer
    simp [PERSON_TIMERS_empty, setTimer]
  refine ⟨hmap, ?_, ?_, ?_⟩
  · unfold update_person_timer
    rw [if_neg (by decide), hmap]
    norm_num [freshTimer, setTimer, RESET_THRESHOLD]
    rfl
  · unfold update_person_timer
    rw [if_neg (by decide), hmap]
    norm_num [freshTimer, setTimer, RESET_THRESHOLD]
    rfl
  · norm_num [pyInt]

/-! ## Theorems about the eye-closure debounce -/

/-- An eye-state detection reporting both eyes closed, for concrete runs. -/
def closedFD : FaceData := ⟨⟨0, 0, 1, 1⟩, false, false⟩

/-- An eye-state detection reporting both eyes open, for concrete runs. -/
def openFD : FaceData := ⟨⟨0, 0, 1, 1⟩, true, true⟩

/-- A matched frame with at least one closed eye advances the accumulator by
now - last_eye_check_time, stamps last_eye_check_time = now, and raises
timer_paused when the new accumulator reaches 3 seconds. -/
theorem eyeUpdate_closed_eq (t : TrackableObject) (d : FaceData) (now t0 : ℚ)
    (ht : t.last_eye_check_time = some t0)
    (hc : d.left_eye_open = false ∨ d.right_eye_open = false) :
    (eyeUpdate t (some d) now).cumulative_closed_time
        = t.cumulative_closed_time + (now - t0) ∧
    (eyeUpdate t (some d) now).last_eye_check_time = some now ∧
    (t.cumulative_closed_time + (now - t0) ≥ 3 →
      (eyeUpdate t (some d) now).timer_paused = true) := by
  rcases hc with h | h
  · refine ⟨by simp [eyeUpdate, ht, h], by simp [eyeUpdate, ht, h], ?_⟩
    intro hge
    simp [eyeUpdate, ht, h, hge]
  · refine ⟨by simp [eyeUpdate, ht, h], by simp [eyeUpdate, ht, h], ?_⟩
    intro hge
    simp [eyeUpdate, ht, h, hge]

/-- A matched frame with both eyes open resets the accumulator to 0 and the
pause flag to false, whatever the prior state. -/
theorem eyeUpdate_open_reset (t : TrackableObject) (d : FaceData) (now : ℚ)
    (hl : d.left_eye_open = true) (hr : d.right_eye_open = true) :
    (eyeUpdate t (some d) now).cumulative_closed_time = 0 ∧
    (eyeUpdate t (some d) now).timer_paused = false := by
  constructor <;> simp [eyeUpdate, hl, hr]

/-- Over a run of matched all-closed frames, the accumulator gains exactly
the time from the initial last_eye_check_time to the last frame, and the
stamp ends at the last frame's time. -/
theorem eyeRun_closed_accum :
    ∀ (frames : List (FaceData × ℚ)) (t : TrackableObject) (t0 : ℚ),
      t.last_eye_check_time = some t0 →
      (∀ g ∈ frames, g.1.left_eye_open = false ∨ g.1.right_eye_open = false) →
      (eyeRun t frames).cumulative_closed_time
          = t.cumulative_closed_time + (frames.foldl (fun _ g => g.2) t0 - t0) ∧
      (eyeRun t frames).last_eye_check_time
          = some (frames.foldl (fun _ g => g.2) t0) := by
  intro frames
  induction frames with
  | nil =>
    intro t t0 ht _
    exact ⟨by simp [eyeRun], by simp [eyeRun, ht]⟩
  | cons g gs ih =>
    intro t t0 ht hcl
    have hg := hcl g (List.mem_cons_self _ _)
    have hstep := eyeUpdate_closed_eq t g.1 g.2 t0 ht hg
    have hrest := ih (eyeUpdate t (some g.1) g.2) g.2 hstep.2.1
      (fun x hx => hcl x (List.mem_cons_of_mem _ hx))
    have hrun : eyeRun t (g :: gs) = eyeRun (eyeUpdate t (some g.1) g.2) gs :=
      rfl
    have hfold : (g :: gs).foldl (fun _ x => x.2) t0
        = gs.foldl (fun _ x => x.2) g.2 := rfl
    rw [hrun, hfold]
    refine ⟨?_, hrest.2⟩
    rw [hrest.1, hstep.1]
    ring

/-- C3: a track whose debounce starts in the Open state (accumulator 0)
that reports at least one eye Closed on every matched frame across a
continuous 3.1-second span ends with timer_paused = true and
cumulative_closed_time at least 3.0, and any immediately following matched
frame reporting both eyes Open resets cumulative_closed_time to 0 and
timer_paused to false. -/
theorem closure_debounce (t : TrackableObject) (t0 : ℚ)
    (frames : List (FaceData × ℚ)) (f : FaceData × ℚ)
    (ht : t.last_eye_check_time = some t0)
    (hcum : t.cumulative_closed_time = 0)
    (hclosed : ∀ g ∈ frames ++ [f],
      g.1.left_eye_open = false ∨ g.1.right_eye_open = false)
    (_hchain : List.Chain' (· ≤ ·) (t0 :: (frames ++ [f]).map Prod.snd))
    (hspan : f.2 = t0 + 31/10) :
    (eyeRun t (frames ++ [f])).timer_paused = true ∧
    (eyeRun t (frames ++ [f])).cumulative_closed_time ≥ 3 ∧
    ∀ (d : FaceData) (τ : ℚ), d.left_eye_open = true → d.right_eye_open = true →
      (eyeUpdate (eyeRun t (frames ++ [f])) (some d) τ).cumulative_closed_time
          = 0 ∧
      (eyeUpdate (eyeRun t (frames ++ [f])) (some d) τ).timer_paused
          = false := by
  have hrun : eyeRun t (frames ++ [f])
      = eyeUpdate (eyeRun t frames) (some f.1) f.2 := by
    simp [eyeRun, List.foldl_append]
  have haccum := eyeRun_closed_accum frames t t0 ht
    (fun g hg => hclosed g (List.mem_append_left _ hg))
  have hf : f.1.left_eye_open = false ∨ f.1.right_eye_open = false :=
    hclosed f (List.mem_append_right _ (List.mem_singleton.mpr rfl))
  have hstep := eyeUpdate_closed_eq (eyeRun t frames) f.1 f.2 _ haccum.2 hf
  have hcum2 : (eyeRun t frames).cumulative_closed_time
      + (f.2 - frames.foldl (fun _ g => g.2) t0) = 31/10 := by
    rw [haccum.1, hcum, hspan]
    ring
  refine ⟨?_, ?_, ?_⟩
  · rw [hrun]
    exact hstep.2.2 (by rw [hcum2]; norm_num)
  · rw [hrun, hstep.1, hcum2]
    norm_num
  · intro d τ hl hr
    exact eyeUpdate_open_reset _ d τ hl hr

/-- Witness for closure_debounce: a fresh track checked at time 0 reports
closed eyes at times 2 and 3.1 and is paused with accumulator 3.1; the next
frame with both eyes open at time 4 resets it. -/
theorem closure_debounce_witness :
    (eyeRun { newTrackableObject 1 with last_eye_check_time := some 0 }
        [(closedFD, 2), (closedFD, 31/10)]).timer_paused = true ∧
    (eyeRun { newTrackableObject 1 with last_eye_check_time := some 0 }
        [(closedFD, 2), (closedFD, 31/10)]).cumulative_closed_time ≥ 3 ∧
    (eyeUpdate (eyeRun { newTrackableObject 1 with last_eye_check_time := some 0 }
        [(closedFD, 2), (closedFD, 31/10)]) (some openFD) 4).cumulative_closed_time
        = 0 ∧
    (eyeUpdate (eyeRun { newTrackableObject 1 with last_eye_check_time := some 0 }
        [(closedFD, 2), (closedFD, 31/10)]) (some openFD) 4).timer_paused
        = false := by
  have h := closure_debounce
    { newTrackableObject 1 with last_eye_check_time := some 0 } 0
    [(closedFD, 2)] (closedFD, 31/10) rfl rfl
    (by intro g hg; simp at hg; rcases hg with rfl | rfl <;> simp [closedFD])
    (by simp [closedFD]; norm_num)
    (by norm_num)
  exact ⟨h.1, h.2.1, (h.2.2 openFD 4 rfl rfl).1, (h.2.2 openFD 4 rfl rfl).2⟩

/-- C2 counterexample: a track whose closure accumulation was last stamped
at time 0 receives a frame with no matching eye-state detection at time 5;
its last_eye_check_time is left at 0, not advanced to the current time 5 as
the claim states, so the next closure delta spans the unmatched gap. -/
theorem eyeUpdate_no_match_counterexample :
    (eyeUpdate { newTrackableObject 1 with last_eye_check_time := some 0 }
        none 5).last_eye_check_time = some 0 ∧
    (some (0 : ℚ) ≠ some (5 : ℚ)) ∧
    (eyeUpdate (eyeUpdate { newTrackableObject 1 with
        last_eye_check_time := some 0 } none 5)
        (some closedFD) 6).cumulative_closed_time = 6 := by
  refine ⟨rfl, by simp, ?_⟩
  have h := eyeUpdate_closed_eq
    (eyeUpdate { newTrackableObject 1 with last_eye_check_time := some 0 }
      none 5) closedFD 6 0 rfl (Or.inl rfl)
  rw [h.1]
  norm_num [eyeUpdate, newTrackableObject]

/-- C2 (amended): a frame with no matching eye-state detection makes no
debounce transition (cumulative_closed_time and timer_paused are unchanged)
and also leaves last_eye_check_time unchanged, so the next closure delta
spans the unmatched gap; only the per-frame eye-state strings are reset to
"unknown". -/
theorem eyeUpdate_no_match (t : TrackableObject) (now : ℚ) :
    (eyeUpdate t none now).cumulative_closed_time = t.cumulative_closed_time ∧
    (eyeUpdate t none now).timer_paused = t.timer_paused ∧
    (eyeUpdate t none now).last_eye_check_time = t.last_eye_check_time ∧
    (eyeUpdate t none now).left_eye_open = "unknown" ∧
    (eyeUpdate t none now).right_eye_open = "unknown" := by
  refine ⟨rfl, rfl, rfl, rfl, rfl⟩

/-! ## Theorems about IoU matching -/

/-- Python max with a key returns an element of the list it maximises. -/
theorem pyMaxByFst_mem :
    ∀ (xs : List (ℚ × FaceData)) (x : ℚ × FaceData),
      pyMaxByFst x xs ∈ x :: xs := by
  intro xs
  induction xs with
  | nil => intro x; simp [pyMaxByFst]
  | cons y ys ih =>
    intro x
    have hstep : pyMaxByFst x (y :: ys)
        = pyMaxByFst (if y.1 > x.1 then y else x) ys := rfl
    rw [hstep]
    rcases List.mem_cons.mp (ih (if y.1 > x.1 then y else x)) with h | h
    · rw [h]
      by_cases hc : y.1 > x.1 <;> simp [hc]
    · exact List.mem_cons_of_mem _ (List.mem_cons_of_mem _ h)

/-- Python max with a key dominates every element of the list. -/
theorem pyMaxByFst_ge :
    ∀ (xs : List (ℚ × FaceData)) (x z : ℚ × FaceData),
      z ∈ x :: xs → z.1 ≤ (pyMaxByFst x xs).1 := by
  intro xs
  induction xs with
  | nil =>
    intro x z hz
    rcases List.mem_cons.mp hz with h | h
    · rw [h]; exact le_refl _
    · simp at h
  | cons y ys ih =>
    intro x z hz
    have hstep : pyMaxByFst x (y :: ys)
        = pyMaxByFst (if y.1 > x.1 then y else x) ys := rfl
    rw [hstep]
    have hx' : x.1 ≤ (if y.1 > x.1 then y else x).1 := by
      by_cases hc : y.1 > x.1 <;> simp [hc]
      exact le_of_lt hc
    have hy' : y.1 ≤ (if y.1 > x.1 then y else x).1 := by
      by_cases hc : y.1 > x.1 <;> simp [hc]
      exact le_of_not_lt hc
    have hbase := ih (if y.1 > x.1 then y else x)
      (if y.1 > x.1 then y else x) (List.mem_cons_self _ _)
    rcases List.mem_cons.mp hz with h | h
    · rw [h]; exact le_trans hx' hbase
    · rcases List.mem_cons.mp h with h2 | h2
      · rw [h2]; exact le_trans hy' hbase
      · exact ih _ z (List.mem_cons_of_mem _ h2)

/-- Every entry of the candidate list built by match_eye_openness pairs an
input detection that intersects the track bbox with its IoU. -/
theorem mem_iousList {faces : List FaceData} {bbox : Box} {p : ℚ × FaceData}
    (hp : p ∈ faces.filterMap fun fd =>
      if boxIntersects bbox fd.bbox then some (iou bbox fd.bbox, fd)
      else none) :
    p.2 ∈ faces ∧ boxIntersects bbox p.2.bbox = true ∧
      p.1 = iou bbox p.2.bbox := by
  rcases List.mem_filterMap.mp hp with ⟨fd, hfd, heq⟩
  by_cases h : boxIntersects bbox fd.bbox
  · rw [if_pos h] at heq
    cases heq
    exact ⟨hfd, h, rfl⟩
  · rw [if_neg h] at heq
    cases heq

/-- C4: a detection accepted by match_eye_openness intersects the track
bbox, has IoU strictly above 0.4, and dominates the IoU of every other
intersecting detection; a single candidate at IoU exactly 0.4 is rejected,
while a single candidate at IoU 0.40001 is accepted. -/
theorem match_eye_openness_max_iou :
    (∀ (faces : List FaceData) (bbox : Box) (f : FaceData),
      match_eye_openness (some faces) bbox = some f →
      f ∈ faces ∧ boxIntersects bbox f.bbox = true ∧ iou bbox f.bbox > 2/5 ∧
      ∀ g ∈ faces, boxIntersects bbox g.bbox = true →
        iou bbox g.bbox ≤ iou bbox f.bbox) ∧
    iou ⟨0, 0, 4, 1⟩ ⟨0, 0, 10, 1⟩ = 2/5 ∧
    match_eye_openness (some [⟨⟨0, 0, 10, 1⟩, false, false⟩]) ⟨0, 0, 4, 1⟩
        = none ∧
    iou ⟨0, 0, 40001, 1⟩ ⟨0, 0, 100000, 1⟩ = 40001/100000 ∧
    match_eye_openness (some [⟨⟨0, 0, 100000, 1⟩, false, false⟩])
        ⟨0, 0, 40001, 1⟩ = some ⟨⟨0, 0, 100000, 1⟩, false, false⟩ := by
  refine ⟨?_, ?_, ?_, ?_, ?_⟩
  · intro faces bbox f hmatch
    have hmatch2 : acceptBest (faces.filterMap fun fd =>
        if boxIntersects bbox fd.bbox then some (iou bbox fd.bbox, fd)
        else none) = some f := hmatch
    clear hmatch
    rcases hi : faces.filterMap fun fd =>
        if boxIntersects bbox fd.bbox then some (iou bbox fd.bbox, fd)
        else none with _ | ⟨x, xs⟩
    · rw [hi] at hmatch2
      simp [acceptBest] at hmatch2
    · rw [hi] at hmatch2
      rw [show acceptBest (x :: xs)
          = if (pyMaxByFst x xs).1 > 2/5 then some (pyMaxByFst x xs).2
            else none from rfl] at hmatch2
      by_cases hgt : (pyMaxByFst x xs).1 > 2/5
      · rw [if_pos hgt] at hmatch2
        have hf : f = (pyMaxByFst x xs).2 := by
          cases hmatch2
          rfl
        have hbest : pyMaxByFst x xs ∈ x :: xs := pyMaxByFst_mem xs x
        rw [← hi] at hbest
        have hchar := mem_iousList hbest
        subst hf
        refine ⟨hchar.1, hchar.2.1, ?_, ?_⟩
        · rw [← hchar.2.2]
          exact hgt
        · intro g hg hgint
          have hgmem : (iou bbox g.bbox, g) ∈ faces.filterMap fun fd =>
              if boxIntersects bbox fd.bbox then some (iou bbox fd.bbox, fd)
              else none :=
            List.mem_filterMap.mpr ⟨g, hg, by rw [if_pos hgint]⟩
          rw [hi] at hgmem
          have := pyMaxByFst_ge xs x (iou bbox g.bbox, g) hgmem
          rw [← hchar.2.2]
          exact this
      · rw [if_neg hgt] at hmatch2
        cases hmatch2
  · norm_num [iou, interArea, iouDenom, boxArea, min_def, max_def]
  · norm_num [match_eye_openness, acceptBest, boxIntersects, iou, interArea,
      iouDenom, boxArea, pyMaxByFst, min_def, max_def, List.filterMap_cons,
      List.filterMap_nil]
  · norm_num [iou, interArea, iouDenom, boxArea, min_def, max_def]
  · norm_num [match_eye_openness, acceptBest, boxIntersects, iou, interArea,
      iouDenom, boxArea, pyMaxByFst, min_def, max_def, List.filterMap_cons,
      List.filterMap_nil]

/-- Witness for the universally quantified part of
match_eye_openness_max_iou, at the accepted IoU-0.40001 instance. -/
theorem match_eye_openness_max_iou_witness :
    (⟨⟨0, 0, 100000, 1⟩, false, false⟩ : FaceData)
        ∈ [(⟨⟨0, 0, 100000, 1⟩, false, false⟩ : FaceData)] ∧
    boxIntersects ⟨0, 0, 40001, 1⟩ ⟨0, 0, 100000, 1⟩ = true ∧
    iou ⟨0, 0, 40001, 1⟩ ⟨0, 0, 100000, 1⟩ > 2/5 := by
  have h := match_eye_openness_max_iou.1
    [⟨⟨0, 0, 100000, 1⟩, false, false⟩] ⟨0, 0, 40001, 1⟩
    ⟨⟨0, 0, 100000, 1⟩, false, false⟩
    match_eye_openness_max_iou.2.2.2.2
  exact ⟨h.1, h.2.1, h.2.2.1⟩

/-- C9: whenever the intersection guard of match_eye_openness passes, the
intersection area and the IoU denominator are strictly positive (so the
division is never by zero), and a pair involving a zero-area box never
passes the guard. -/
theorem iou_division_safe (b e : Box) :
    (boxIntersects b e = true →
      0 < interArea b e ∧ 0 < iouDenom b e) ∧
    ((boxArea b = 0 ∨ boxArea e = 0) → boxIntersects b e = false) := by
  constructor
  · intro hint
    simp only [boxIntersects, Bool.and_eq_true, decide_eq_true_eq] at hint
    obtain ⟨hx, hy⟩ := hint
    have hwI : 0 < min b.x2 e.x2 - max b.x1 e.x1 := by linarith
    have hhI : 0 < min b.y2 e.y2 - max b.y1 e.y1 := by linarith
    have hinter : 0 < interArea b e := mul_pos hwI hhI
    have hwb : min b.x2 e.x2 - max b.x1 e.x1 ≤ b.x2 - b.x1 := by
      have h1 := min_le_left b.x2 e.x2
      have h2 := le_max_left b.x1 e.x1
      linarith
    have hhb : min b.y2 e.y2 - max b.y1 e.y1 ≤ b.y2 - b.y1 := by
      have h1 := min_le_left b.y2 e.y2
      have h2 := le_max_left b.y1 e.y1
      linarith
    have hab : interArea b e ≤ boxArea b := by
      unfold interArea boxArea
      exact mul_le_mul hwb hhb (le_of_lt hhI) (by linarith)
    have hae : 0 < boxArea e := by
      have h1 := min_le_right b.x2 e.x2
      have h2 := le_max_right b.x1 e.x1
      have h3 := min_le_right b.y2 e.y2
      have h4 := le_max_right b.y1 e.y1
      unfold boxArea
      apply mul_pos <;> linarith
    refine ⟨hinter, ?_⟩
    unfold iouDenom
    linarith
  · intro hz
    cases hbe : boxIntersects b e
    · rfl
    · exfalso
      simp only [boxIntersects, Bool.and_eq_true, decide_eq_true_eq] at hbe
      obtain ⟨hx, hy⟩ := hbe
      have hx1 := le_max_left b.x1 e.x1
      have hx2 := min_le_left b.x2 e.x2
      have hx3 := le_max_right b.x1 e.x1
      have hx4 := min_le_right b.x2 e.x2
      have hy1 := le_max_left b.y1 e.y1
      have hy2 := min_le_left b.y2 e.y2
      have hy3 := le_max_right b.y1 e.y1
      have hy4 := min_le_right b.y2 e.y2
      rcases hz with hz | hz <;> rcases mul_eq_zero.mp hz with h0 | h0
      · linarith [sub_eq_zero.mp h0]
      · linarith [sub_eq_zero.mp h0]
      · linarith [sub_eq_zero.mp h0]
      · linarith [sub_eq_zero.mp h0]

/-- Witness for iou_division_safe: an intersecting concrete pair has a
positive denominator, and a zero-width box is rejected by the guard. -/
theorem iou_division_safe_witness :
    (0 < interArea ⟨0, 0, 4, 1⟩ ⟨0, 0, 10, 1⟩ ∧
      0 < iouDenom ⟨0, 0, 4, 1⟩ ⟨0, 0, 10, 1⟩) ∧
    boxIntersects ⟨0, 0, 4, 1⟩ ⟨7, 0, 7, 9⟩ = false := by
  constructor
  · exact (iou_division_safe ⟨0, 0, 4, 1⟩ ⟨0, 0, 10, 1⟩).1
      (by norm_num [boxIntersects, min_def, max_def])
  · exact (iou_division_safe ⟨0, 0, 4, 1⟩ ⟨7, 0, 7, 9⟩).2
      (Or.inr (by norm_num [boxArea]))

/-! ## Theorems about the distinct-sightings counter -/

/-- Qualifying recognitions whose gap from the stored last-recognition time
stays within 15 seconds never increment the per-identity count. -/
theorem sightRun_within_window :
    ∀ (ts : List ℚ) (p : ℚ) (c : ℕ),
      List.Chain' (fun a b => b - a ≤ 15) (p :: ts) →
      (sightRun (some p, c) ts).2 = c := by
  intro ts
  induction ts with
  | nil => intro p c _; rfl
  | cons t ts ih =>
    intro p c hchain
    rcases List.chain'_cons.mp hchain with ⟨hpt, hrest⟩
    have hstep : sightRun (some p, c) (t :: ts)
        = sightRun (sightStep (some p, c) t) ts := rfl
    rw [hstep]
    have : sightStep (some p, c) t = (some t, c) := by
      simp [sightStep]
      linarith
    rw [this]
    exact ih t c hrest

/-- The sighting count grows by exactly the number of increment times. -/
theorem sightRun_count_eq :
    ∀ (ts : List ℚ) (o : Option ℚ) (c : ℕ),
      (sightRun (o, c) ts).2 = c + (incTimes o ts).length := by
  intro ts
  induction ts with
  | nil => intro o c; cases o <;> rfl
  | cons t ts ih =>
    intro o c
    cases o with
    | none =>
      have hstep : sightRun ((none : Option ℚ), c) (t :: ts)
          = sightRun (some t, c + 1) ts := rfl
      rw [hstep, ih (some t) (c + 1)]
      simp [incTimes]
      ring
    | some p =>
      by_cases hgt : t - p > 15
      · have hstep : sightRun (some p, c) (t :: ts)
            = sightRun (some t, c + 1) ts := by
          simp [sightRun, sightStep, hgt]
        rw [hstep, ih (some t) (c + 1)]
        simp [incTimes, hgt]
        ring
      · have hstep : sightRun (some p, c) (t :: ts)
            = sightRun (some t, c) ts := by
          simp [sightRun, sightStep, hgt]
        rw [hstep, ih (some t) c]
        simp [incTimes, hgt]

/-- With a stored last-recognition time p and chronologically ordered
recognition times, every increment time exceeds p by more than 15 seconds,
and the increment times are pairwise separated by more than 15 seconds. -/
theorem incTimes_separated :
    ∀ (ts : List ℚ) (p : ℚ),
      List.Chain' (· ≤ ·) (p :: ts) →
      (∀ u ∈ incTimes (some p) ts, u - p > 15) ∧
      (incTimes (some p) ts).Pairwise (fun a b => b - a > 15) := by
  intro ts
  induction ts with
  | nil => intro p _; simp [incTimes]
  | cons t ts ih =>
    intro p hchain
    rcases List.chain'_cons.mp hchain with ⟨hpt, hrest⟩
    have iht := ih t hrest
    by_cases hgt : t - p > 15
    · have hexp : incTimes (some p) (t :: ts) = t :: incTimes (some t) ts := by
        simp [incTimes, hgt]
      rw [hexp]
      constructor
      · intro u hu
        rcases List.mem_cons.mp hu with rfl | hu
        · exact hgt
        · have := iht.1 u hu
          linarith
      · exact List.pairwise_cons.mpr ⟨fun u hu => iht.1 u hu, iht.2⟩
    · have hexp : incTimes (some p) (t :: ts) = incTimes (some t) ts := by
        simp [incTimes, hgt]
      rw [hexp]
      constructor
      · intro u hu
        have := iht.1 u hu
        linarith
      · exact iht.2


/-- C7: the per-identity sighting bookkeeping of identity resolution agrees
with its per-identity projection sightStep; the count grows by one per
increment time; for chronologically ordered recognition times starting from
a fresh identity, any two increments are separated by more than 15 seconds;
and a first recognition followed only by recognitions within 15 seconds of
the previous one counts as exactly one sighting. -/
theorem sighting_window :
    (∀ (rp : String → Option ℚ) (sp : String → ℕ) (n : String) (now : ℚ),
      ((recordSighting rp sp n now).1 n, (recordSighting rp sp n now).2 n)
          = sightStep (rp n, sp n) now) ∧
    (∀ (ts : List ℚ) (o : Option ℚ) (c : ℕ),
      (sightRun (o, c) ts).2 = c + (incTimes o ts).length) ∧
    (∀ ts : List ℚ, List.Chain' (· ≤ ·) ts →
      (incTimes none ts).Pairwise (fun a b => b - a > 15)) ∧
    (∀ (t : ℚ) (ts : List ℚ),
      List.Chain' (fun a b => b - a ≤ 15) (t :: ts) →
      (sightRun ((none : Option ℚ), 0) (t :: ts)).2 = 1) := by
  refine ⟨?_, sightRun_count_eq, ?_, ?_⟩
  · intro rp sp n now
    cases h : rp n with
    | none => simp [recordSighting, sightStep, h]
    | some prev =>
      by_cases hgt : now - prev > 15 <;>
        simp [recordSighting, sightStep, h, hgt]
  · intro ts hchain
    cases ts with
    | nil => simp [incTimes]
    | cons t ts =>
      have hexp : incTimes none (t :: ts) = t :: incTimes (some t) ts := rfl
      rw [hexp]
      have hsep := incTimes_separated ts t hchain
      exact List.pairwise_cons.mpr ⟨fun u hu => hsep.1 u hu, hsep.2⟩
  · intro t ts hchain
    have hstep : sightRun ((none : Option ℚ), 0) (t :: ts)
        = sightRun (some t, 1) ts := rfl
    rw [hstep]
    exact sightRun_within_window ts t 1 hchain

/-- Witness for sighting_window: recognitions at times 0, 20 and 30
increment at 0 and 20 (separated by more than 15 seconds), while
recognitions at 0, 10 and 20 (each within 15 seconds of the previous one)
count as a single sighting. -/
theorem sighting_window_witness :
    ((recordSighting (fun _ => none) (fun _ => 0) "alice" 0).1 "alice",
      (recordSighting (fun _ => none) (fun _ => 0) "alice" 0).2 "alice")
        = sightStep (none, 0) 0 ∧
    (incTimes none [0, 20, 30]).Pairwise (fun a b => b - a > 15) ∧
    (sightRun ((none : Option ℚ), 0) [0, 10, 20]).2 = 1 := by
  refine ⟨sighting_window.1 (fun _ => none) (fun _ => 0) "alice" 0, ?_, ?_⟩
  · exact sighting_window.2.2.1 [0, 20, 30]
      (by norm_num [List.chain'_cons])
  · exact sighting_window.2.2.2 0 [10, 20]
      (by norm_num [List.chain'_cons])

/-! ## Theorems about the track registry lifecycle -/

theorem alookup_upsert_self :
    ∀ (l : List (ℕ × TrackableObject)) (id : ℕ) (v : TrackableObject),
      alookup (upsert l id v) id = some v := by
  intro l
  induction l with
  | nil => intro id v; simp [upsert, alookup]
  | cons kv rest ih =>
    intro id v
    obtain ⟨a, w⟩ := kv
    by_cases h : a = id
    · simp [upsert, h, alookup]
    · rw [show upsert ((a, w) :: rest) id v = (a, w) :: upsert rest id v from by
        simp [upsert, h]]
      rw [show alookup ((a, w) :: upsert rest id v) id
          = alookup (upsert rest id v) id from by simp [alookup, h]]
      exact ih id v

theorem alookup_upsert_ne :
    ∀ (l : List (ℕ × TrackableObject)) (id k : ℕ) (v : TrackableObject),
      k ≠ id → alookup (upsert l id v) k = alookup l k := by
  intro l
  induction l with
  | nil => intro id k v hk; simp [upsert, alookup, Ne.symm hk]
  | cons kv rest ih =>
    intro id k v hk
    obtain ⟨a, w⟩ := kv
    by_cases h : a = id
    · rw [show upsert ((a, w) :: rest) id v = (id, v) :: rest from by
        simp [upsert, h]]
      simp [alookup, Ne.symm hk, h]
    · rw [show upsert ((a, w) :: rest) id v = (a, w) :: upsert rest id v from by
        simp [upsert, h]]
      by_cases hak : a = k
      · simp [alookup, hak]
      · simp only [alookup, if_neg hak]
        exact ih id k v hk

theorem alookup_mem :
    ∀ (l : List (ℕ × TrackableObject)) (k : ℕ) (v : TrackableObject),
      alookup l k = some v → (k, v) ∈ l := by
  intro l
  induction l with
  | nil => intro k v h; simp [alookup] at h
  | cons kv rest ih =>
    intro k v h
    obtain ⟨a, w⟩ := kv
    by_cases hak : a = k
    · rw [show alookup ((a, w) :: rest) k = some w from by simp [alookup, hak]]
        at h
      cases h
      subst hak
      exact List.mem_cons_self _ _
    · rw [show alookup ((a, w) :: rest) k = alookup rest k from by
        simp [alookup, hak]] at h
      exact List.mem_cons_of_mem _ (ih k v h)

theorem mem_alookup_nodup :
    ∀ (l : List (ℕ × TrackableObject)) (k : ℕ) (v : TrackableObject),
      (l.map Prod.fst).Nodup → (k, v) ∈ l → alookup l k = some v := by
  intro l
  induction l with
  | nil => intro k v _ h; simp at h
  | cons kv rest ih =>
    intro k v hnd hm
    obtain ⟨a, w⟩ := kv
    rcases List.mem_cons.mp hm with heq | hm2
    · cases heq
      simp [alookup]
    · rw [List.map_cons] at hnd
      have hnd2 := List.nodup_cons.mp hnd
      have hak : a ≠ k := by
        intro hcontra
        subst hcontra
        exact hnd2.1 (List.mem_map.mpr ⟨(a, v), hm2, rfl⟩)
      rw [show alookup ((a, w) :: rest) k = alookup rest k from by
        simp [alookup, hak]]
      exact ih k v hnd2.2 hm2

theorem alookup_isSome_of_mem_keys :
    ∀ (l : List (ℕ × TrackableObject)) (k : ℕ),
      k ∈ l.map Prod.fst → (alookup l k).isSome := by
  intro l
  induction l with
  | nil => intro k h; simp at h
  | cons kv rest ih =>
    intro k h
    obtain ⟨a, w⟩ := kv
    by_cases hak : a = k
    · rw [show alookup ((a, w) :: rest) k = some w from by simp [alookup, hak]]
      rfl
    · rw [show alookup ((a, w) :: rest) k = alookup rest k from by
        simp [alookup, hak]]
      rw [List.map_cons] at h
      rcases List.mem_cons.mp h with heq | hm
      · exact absurd heq.symm hak
      · exact ih k hm

theorem keys_upsert :
    ∀ (l : List (ℕ × TrackableObject)) (id : ℕ) (v : TrackableObject),
      (upsert l id v).map Prod.fst
        = if id ∈ l.map Prod.fst then l.map Prod.fst
          else l.map Prod.fst ++ [id] := by
  intro l
  induction l with
  | nil => intro id v; simp [upsert]
  | cons kv rest ih =>
    intro id v
    obtain ⟨a, w⟩ := kv
    by_cases h : a = id
    · subst h
      rw [show upsert ((a, w) :: rest) a v = (a, v) :: rest from by
        simp [upsert]]
      simp
    · rw [show upsert ((a, w) :: rest) id v = (a, w) :: upsert rest id v from by
        simp [upsert, h]]
      rw [List.map_cons, List.map_cons, ih id v]
      have hmem : id ∈ (a, w).1 :: rest.map Prod.fst
          ↔ id ∈ rest.map Prod.fst := by
        constructor
        · intro hx
          rcases List.mem_cons.mp hx with hxa | hx2
          · exact absurd hxa (Ne.symm h)
          · exact hx2
        · exact fun hx => List.mem_cons_of_mem _ hx
      by_cases hid : id ∈ rest.map Prod.fst
      · rw [if_pos hid, if_pos (hmem.mpr hid)]
      · rw [if_neg hid, if_neg (fun hc => hid (hmem.mp hc))]
        simp

theorem nodup_keys_upsert
    (l : List (ℕ × TrackableObject)) (id : ℕ) (v : TrackableObject)
    (hnd : (l.map Prod.fst).Nodup) :
    ((upsert l id v).map Prod.fst).Nodup := by
  rw [keys_upsert l id v]
  by_cases h : id ∈ l.map Prod.fst
  · rwa [if_pos h]
  · rw [if_neg h]
    refine List.Nodup.append hnd (List.nodup_singleton id) ?_
    intro a ha hb
    rw [List.mem_singleton.mp hb] at ha
    exact h ha

theorem alookup_markAllDead (l : List (ℕ × TrackableObject)) (k : ℕ) :
    alookup (markAllDead l) k
      = (alookup l k).map fun t => { t with live := false } := by
  induction l with
  | nil => simp [markAllDead, alookup]
  | cons kv rest ih =>
    obtain ⟨a, w⟩ := kv
    by_cases hak : a = k
    · simp [markAllDead, alookup, hak]
    · rw [show markAllDead ((a, w) :: rest)
          = (a, { w with live := false }) :: markAllDead rest from rfl]
      rw [show alookup ((a, { w with live := false }) :: markAllDead rest) k
          = alookup (markAllDead rest) k from by simp [alookup, hak]]
      rw [show alookup ((a, w) :: rest) k = alookup rest k from by
        simp [alookup, hak]]
      exact ih

theorem keys_markAllDead (l : List (ℕ × TrackableObject)) :
    (markAllDead l).map Prod.fst = l.map Prod.fst := by
  induction l with
  | nil => rfl
  | cons kv rest ih =>
    obtain ⟨a, w⟩ := kv
    rw [show markAllDead ((a, w) :: rest)
        = (a, { w with live := false }) :: markAllDead rest from rfl]
    simp only [List.map_cons, ih]

theorem keys_purgeDead_mem (l : List (ℕ × TrackableObject)) (k : ℕ) :
    k ∈ (purgeDead l).map Prod.fst
      ↔ ∃ v, (k, v) ∈ l ∧ v.live = true := by
  constructor
  · intro h
    rcases List.mem_map.mp h with ⟨kv, hkv, hfst⟩
    rcases List.mem_filter.mp hkv with ⟨hmem, hlive⟩
    exact ⟨kv.2, by rw [← hfst]; simpa using hmem, by simpa using hlive⟩
  · rintro ⟨v, hmem, hlive⟩
    exact List.mem_map.mpr ⟨(k, v),
      List.mem_filter.mpr ⟨hmem, by simpa using hlive⟩, rfl⟩

theorem nodup_keys_purgeDead (l : List (ℕ × TrackableObject))
    (hnd : (l.map Prod.fst).Nodup) :
    ((purgeDead l).map Prod.fst).Nodup :=
  ((List.filter_sublist l).map Prod.fst).nodup hnd

/-- The eye-closure debounce touches only the eye-state fields: identity,
geometry, liveness and demographics pass through unchanged. -/
theorem eyeUpdate_preserves_fields (t : TrackableObject) (d : Option FaceData)
    (now : ℚ) :
    (eyeUpdate t d now).objectID = t.objectID ∧
    (eyeUpdate t d now).bbox = t.bbox ∧
    (eyeUpdate t d now).kps = t.kps ∧
    (eyeUpdate t d now).live = t.live ∧
    (eyeUpdate t d now).lost_count = t.lost_count ∧
    (eyeUpdate t d now).recognized = t.recognized ∧
    (eyeUpdate t d now).name = t.name ∧
    (eyeUpdate t d now).pinfl = t.pinfl ∧
    (eyeUpdate t d now).score = t.score ∧
    (eyeUpdate t d now).image_path = t.image_path ∧
    (eyeUpdate t d now).age = t.age ∧
    (eyeUpdate t d now).gender = t.gender := by
  cases d with
  | none => exact ⟨rfl, rfl, rfl, rfl, rfl, rfl, rfl, rfl, rfl, rfl, rfl, rfl⟩
  | some d =>
    by_cases h : (!d.left_eye_open || !d.right_eye_open) = true <;>
      refine ⟨?_, ?_, ?_, ?_, ?_, ?_, ?_, ?_, ?_, ?_, ?_, ?_⟩ <;>
      simp [eyeUpdate, h]

/-- The identity-resolution block never changes liveness, geometry or the
eye-closure debounce state. -/
theorem recognitionUpdate_preserves (t1 : TrackableObject)
    (pr : Option Person) (rp : String → Option ℚ) (sp : String → ℕ)
    (now : ℚ) :
    (recognitionUpdate t1 pr rp sp now).1.objectID = t1.objectID ∧
    (recognitionUpdate t1 pr rp sp now).1.bbox = t1.bbox ∧
    (recognitionUpdate t1 pr rp sp now).1.kps = t1.kps ∧
    (recognitionUpdate t1 pr rp sp now).1.live = t1.live ∧
    (recognitionUpdate t1 pr rp sp now).1.lost_count = t1.lost_count ∧
    (recognitionUpdate t1 pr rp sp now).1.cumulative_closed_time
        = t1.cumulative_closed_time ∧
    (recognitionUpdate t1 pr rp sp now).1.timer_paused = t1.timer_paused ∧
    (recognitionUpdate t1 pr rp sp now).1.last_eye_check_time
        = t1.last_eye_check_time := by
  by_cases h : t1.recognized
  · refine ⟨?_, ?_, ?_, ?_, ?_, ?_, ?_, ?_⟩ <;> simp [recognitionUpdate, h]
  · cases pr with
    | none =>
      refine ⟨?_, ?_, ?_, ?_, ?_, ?_, ?_, ?_⟩ <;>
        simp [recognitionUpdate, h, apply_ite]
    | some p =>
      by_cases hs : p.score > t1.score <;>
        refine ⟨?_, ?_, ?_, ?_, ?_, ?_, ?_, ?_⟩ <;>
        simp [recognitionUpdate, h, hs, apply_ite]

/-- An already-recognized track passes through identity resolution entirely
untouched, sighting maps included. -/
theorem recognitionUpdate_recognized (t1 : TrackableObject)
    (pr : Option Person) (rp : String → Option ℚ) (sp : String → ℕ)
    (now : ℚ) (h : t1.recognized = true) :
    recognitionUpdate t1 pr rp sp now = (t1, rp, sp) := by
  simp [recognitionUpdate, h]

/-- After identity resolution, a positive stored score forces the
recognized flag. -/
theorem recognitionUpdate_score_pos (t1 : TrackableObject)
    (pr : Option Person) (rp : String → Option ℚ) (sp : String → ℕ)
    (now : ℚ)
    (hs : (recognitionUpdate t1 pr rp sp now).1.score > 0) :
    (recognitionUpdate t1 pr rp sp now).1.recognized = true := by
  by_cases h : t1.recognized
  · simp [recognitionUpdate, h]
  · unfold recognitionUpdate at hs ⊢
    rw [if_neg h] at hs ⊢
    by_cases hpos : (match pr with
        | some p =>
          if p.score > t1.score then
            ({ t1 with name := p.name, pinfl := p.pinfl, score := p.score,
                       image_path := p.image_path },
             (recordSighting rp sp p.name now).1,
             (recordSighting rp sp p.name now).2)
          else (t1, rp, sp)
        | none => (t1, rp, sp)).1.score > 0
    · simp only [if_pos hpos]
    · simp only [if_neg hpos] at hs ⊢
      exact absurd hs hpos

/-- The registry write of one reconciliation-loop iteration is an upsert of
a record marked live. -/
theorem processObject_registry (st : FaceAnalysisState) (inp : TrackedInput)
    (eyes : Option (List FaceData)) (now : ℚ) :
    ∃ t4, (processObject st inp eyes now).trackableObjects
        = upsert st.trackableObjects inp.objectID t4 ∧ t4.live = true := by
  refine ⟨_, rfl, ?_⟩
  rw [(eyeUpdate_preserves_fields _ _ _).2.2.2.1]
  show (recognitionUpdate _ _ _ _ _).1.live = true
  rw [(recognitionUpdate_preserves _ _ _ _ _).2.2.2.1]

/-- The object-processing loop of one frame, as iterated by
FaceAnalysis.get over the tracker's confirmed objects. -/
def processAll (eyes : Option (List FaceData)) (now : ℚ)
    (s : FaceAnalysisState) (objs : List TrackedInput) : FaceAnalysisState :=
  objs.foldl (fun s inp => processObject s inp eyes now) s

/-- Invariant of the object-processing loop: keys stay nodup, a record is
live exactly when it was live before the loop or its track id was
confirmed, confirmed ids are present, and present keys stay present. -/
theorem processAll_registry (eyes : Option (List FaceData)) (now : ℚ) :
    ∀ (objs : List TrackedInput) (s : FaceAnalysisState),
      (s.trackableObjects.map Prod.fst).Nodup →
      ((processAll eyes now s objs).trackableObjects.map Prod.fst).Nodup ∧
      (∀ k v,
        alookup (processAll eyes now s objs).trackableObjects k = some v →
        (v.live = true ↔
          (∃ v0, alookup s.trackableObjects k = some v0 ∧ v0.live = true) ∨
          k ∈ objs.map TrackedInput.objectID)) ∧
      (∀ k, k ∈ objs.map TrackedInput.objectID →
        (alookup (processAll eyes now s objs).trackableObjects k).isSome) ∧
      (∀ k, (alookup s.trackableObjects k).isSome →
        (alookup (processAll eyes now s objs).trackableObjects k).isSome) := by
  intro objs
  induction objs with
  | nil =>
    intro s hnd
    refine ⟨hnd, ?_, ?_, ?_⟩
    · intro k v h
      have h3 : alookup s.trackableObjects k = some v := h
      constructor
      · intro hl
        exact Or.inl ⟨v, h3, hl⟩
      · rintro (⟨v0, h0, hl⟩ | hfalse)
        · rw [h0] at h3
          cases h3
          exact hl
        · simp at hfalse
    · intro k hk
      simp at hk
    · intro k h
      exact h
  | cons inp objs ih =>
    intro s hnd
    obtain ⟨t4, heq, ht4⟩ := processObject_registry s inp eyes now
    have hnd2 : (((processObject s inp eyes now).trackableObjects).map
        Prod.fst).Nodup := by
      rw [heq]
      exact nodup_keys_upsert _ _ _ hnd
    have IH := ih (processObject s inp eyes now) hnd2
    have hfold : processAll eyes now s (inp :: objs)
        = processAll eyes now (processObject s inp eyes now) objs := rfl
    rw [hfold]
    refine ⟨IH.1, ?_, ?_, ?_⟩
    · intro k v halk
      have h2 := IH.2.1 k v halk
      by_cases hk : k = inp.objectID
      · have hself : alookup (processObject s inp eyes now).trackableObjects k
            = some t4 := by
          rw [heq, hk]
          exact alookup_upsert_self _ _ _
        have hlive : v.live = true := h2.mpr (Or.inl ⟨t4, hself, ht4⟩)
        constructor
        · intro _
          refine Or.inr ?_
          rw [List.map_cons, hk]
          exact List.mem_cons_self _ _
        · intro _
          exact hlive
      · have hne : alookup (processObject s inp eyes now).trackableObjects k
            = alookup s.trackableObjects k := by
          rw [heq]
          exact alookup_upsert_ne _ _ _ _ hk
        rw [hne] at h2
        constructor
        · intro hl
          rcases h2.mp hl with hA | hB
          · exact Or.inl hA
          · refine Or.inr ?_
            rw [List.map_cons]
            exact List.mem_cons_of_mem _ hB
        · rintro (hA | hB)
          · exact h2.mpr (Or.inl hA)
          · rw [List.map_cons] at hB
            rcases List.mem_cons.mp hB with hkid | hB2
            · exact absurd hkid hk
            · exact h2.mpr (Or.inr hB2)
    · intro k hk
      rw [List.map_cons] at hk
      rcases List.mem_cons.mp hk with hkid | hk2
      · apply IH.2.2.2
        rw [heq, hkid, alookup_upsert_self]
        rfl
      · exact IH.2.2.1 k hk2
    · intro k hsome
      apply IH.2.2.2
      by_cases hk : k = inp.objectID
      · rw [heq, hk, alookup_upsert_self]
        rfl
      · rw [heq, alookup_upsert_ne _ _ _ _ hk]
        exact hsome

/-- C8: after a full reconciliation pass, the registry keys are exactly the
track ids confirmed by the tracker this frame, with no duplicate keys:
every record marked dead at the start of the pass and not confirmed during
it is gone. -/
theorem track_registry_reconciliation (st : FaceAnalysisState)
    (objs : List TrackedInput) (eyes : Option (List FaceData)) (now : ℚ)
    (hnd : (st.trackableObjects.map Prod.fst).Nodup) :
    (((processFrame st objs eyes now).trackableObjects.map Prod.fst).Nodup) ∧
    (∀ id : ℕ,
      id ∈ (processFrame st objs eyes now).trackableObjects.map Prod.fst
        ↔ id ∈ objs.map TrackedInput.objectID) := by
  have hframe : (processFrame st objs eyes now).trackableObjects
      = purgeDead (processAll eyes now
          { st with trackableObjects := markAllDead st.trackableObjects }
          objs).trackableObjects := rfl
  have hnd1 : (({ st with
      trackableObjects := markAllDead st.trackableObjects }
        : FaceAnalysisState).trackableObjects.map Prod.fst).Nodup := by
    show ((markAllDead st.trackableObjects).map Prod.fst).Nodup
    rw [keys_markAllDead]
    exact hnd
  have INV := processAll_registry eyes now objs
    { st with trackableObjects := markAllDead st.trackableObjects } hnd1
  have hdead : ∀ k, ¬ ∃ v0,
      alookup ({ st with trackableObjects := markAllDead st.trackableObjects }
        : FaceAnalysisState).trackableObjects k = some v0 ∧
      v0.live = true := by
    rintro k ⟨v0, h0, hl⟩
    have h1 : alookup (markAllDead st.trackableObjects) k = some v0 := h0
    rw [alookup_markAllDead] at h1
    rcases Option.map_eq_some'.mp h1 with ⟨u, _, hueq⟩
    rw [← hueq] at hl
    simp at hl
  rw [hframe]
  refine ⟨nodup_keys_purgeDead _ INV.1, ?_⟩
  intro id
  rw [keys_purgeDead_mem]
  constructor
  · rintro ⟨v, hmem, hlive⟩
    have halk := mem_alookup_nodup _ id v INV.1 hmem
    rcases (INV.2.1 id v halk).mp hlive with hA | hB
    · exact absurd hA (hdead id)
    · exact hB
  · intro hid
    have hsome := INV.2.2.1 id hid
    rcases Option.isSome_iff_exists.mp hsome with ⟨v, hv⟩
    refine ⟨v, alookup_mem _ id v hv, ?_⟩
    exact (INV.2.1 id v hv).mpr (Or.inr hid)

/-- A tracker input with id 5, for the concrete reconciliation run. -/
def inp5 : TrackedInput := ⟨5, ⟨0, 0, 1, 1⟩, [], none, 0, 2⟩

/-- An empty FaceAnalysis state, for concrete runs. -/
def emptyState : FaceAnalysisState := ⟨[], fun _ => none, fun _ => 0⟩

/-- Witness for track_registry_reconciliation: starting from an empty
registry and confirming only track 5, after the pass the registry keys are
nodup and contain id 5. -/
theorem track_registry_reconciliation_witness :
    (((processFrame emptyState [inp5] none 0).trackableObjects.map
        Prod.fst).Nodup) ∧
    (5 ∈ (processFrame emptyState [inp5] none 0).trackableObjects.map
        Prod.fst
      ↔ 5 ∈ [inp5].map TrackedInput.objectID) := by
  have h := track_registry_reconciliation emptyState [inp5] none 0
    (by simp [emptyState])
  exact ⟨h.1, h.2 5⟩

/-- Unfolding of processObject when the track id is already registered. -/
theorem processObject_eq (st : FaceAnalysisState) (inp : TrackedInput)
    (eyes : Option (List FaceData)) (now : ℚ) (t : TrackableObject)
    (ht : alookup st.trackableObjects inp.objectID = some t) :
    processObject st inp eyes now =
      { trackableObjects := upsert st.trackableObjects inp.objectID
          (eyeUpdate
            { (recognitionUpdate
                { t with bbox := inp.bbox, kps := inp.kps, live := true,
                         lost_count := 0 }
                inp.personResult st.record_people st.seen_people now).1
              with age := inp.age, gender := inp.gender }
            (match_eye_openness eyes inp.bbox) now),
        record_people := (recognitionUpdate
            { t with bbox := inp.bbox, kps := inp.kps, live := true,
                     lost_count := 0 }
            inp.personResult st.record_people st.seen_people now).2.1,
        seen_people := (recognitionUpdate
            { t with bbox := inp.bbox, kps := inp.kps, live := true,
                     lost_count := 0 }
            inp.personResult st.record_people st.seen_people now).2.2 } := by
  unfold processObject
  rw [ht]
  rfl

/-- C10: once a registered track's recognized flag is true, a frame update
leaves its identity fields (name, pinfl, score, image_path) and its
recognized flag untouched and does not touch the sighting maps, while still
refreshing geometry and age/gender; moreover any updated record with a
positive stored score carries recognized = true (the flag is raised as soon
as the score exceeds 0). -/
theorem recognized_track_identity_frozen (st : FaceAnalysisState)
    (inp : TrackedInput) (eyes : Option (List FaceData)) (now : ℚ)
    (t : TrackableObject)
    (ht : alookup st.trackableObjects inp.objectID = some t) :
    (t.recognized = true →
      ∃ t4, alookup (processObject st inp eyes now).trackableObjects
          inp.objectID = some t4 ∧
        t4.recognized = true ∧ t4.name = t.name ∧ t4.pinfl = t.pinfl ∧
        t4.score = t.score ∧ t4.image_path = t.image_path ∧
        t4.bbox = inp.bbox ∧ t4.kps = inp.kps ∧
        t4.age = inp.age ∧ t4.gender = inp.gender ∧
        (processObject st inp eyes now).record_people = st.record_people ∧
        (processObject st inp eyes now).seen_people = st.seen_people) ∧
    (∀ t4, alookup (processObject st inp eyes now).trackableObjects
        inp.objectID = some t4 →
      t4.score > 0 → t4.recognized = true) := by
  rw [processObject_eq st inp eyes now t ht]
  constructor
  · intro hrec
    have ht1rec : ({ t with bbox := inp.bbox, kps := inp.kps, live := true, lost_count := 0 } : TrackableObject).recognized = true := hrec
    rw [recognitionUpdate_recognized _ _ _ _ _ ht1rec]
    have E := eyeUpdate_preserves_fields
      { t with bbox := inp.bbox, kps := inp.kps, live := true,
               lost_count := 0, age := inp.age, gender := inp.gender }
      (match_eye_openness eyes inp.bbox) now
    exact ⟨_, alookup_upsert_self _ _ _,
      E.2.2.2.2.2.1.trans hrec,
      E.2.2.2.2.2.2.1,
      E.2.2.2.2.2.2.2.1,
      E.2.2.2.2.2.2.2.2.1,
      E.2.2.2.2.2.2.2.2.2.1,
      E.2.1,
      E.2.2.1,
      E.2.2.2.2.2.2.2.2.2.2.1,
      E.2.2.2.2.2.2.2.2.2.2.2,
      rfl, rfl⟩
  · intro t4 halk hscore
    rw [alookup_upsert_self] at halk
    injection halk with h4
    subst h4
    rw [(eyeUpdate_preserves_fields _ _ _).2.2.2.2.2.2.2.2.1] at hscore
    rw [(eyeUpdate_preserves_fields _ _ _).2.2.2.2.2.1]
    exact recognitionUpdate_score_pos _ _ _ _ _ hscore

/-- A recognized track record for the concrete frozen-identity run. -/
def trec : TrackableObject :=
  { newTrackableObject 7 with
      recognized := true, name := "bob", pinfl := "P1", score := 1/2,
      image_path := "bob.jpg" }

/-- A state whose registry holds the recognized track 7. -/
def strec : FaceAnalysisState := ⟨[(7, trec)], fun _ => none, fun _ => 0⟩

/-- A frame input for track 7 carrying a strictly better recognition
result, which must nevertheless be ignored. -/
def inprec : TrackedInput :=
  ⟨7, ⟨0, 0, 2, 2⟩, [], some ⟨"eve", 9/10, "P2", "eve.jpg"⟩, 33, 1⟩

/-- Witness for recognized_track_identity_frozen: track 7, recognized as
"bob" with score 0.5, keeps its identity even though the frame offers a
score-0.9 match for "eve", and its geometry and demographics refresh. -/
theorem recognized_track_identity_frozen_witness :
    (alookup (processObject strec inprec none 0).trackableObjects
        inprec.objectID).map TrackableObject.name = some trec.name ∧
    (alookup (processObject strec inprec none 0).trackableObjects
        inprec.objectID).map TrackableObject.score = some trec.score ∧
    (alookup (processObject strec inprec none 0).trackableObjects
        inprec.objectID).map TrackableObject.recognized = some true ∧
    (alookup (processObject strec inprec none 0).trackableObjects
        inprec.objectID).map TrackableObject.age = some inprec.age ∧
    (processObject strec inprec none 0).record_people = strec.record_people := by
  obtain ⟨t4, halk, hrec, hname, hpinfl, hscore, him, hbbox, hkps, hage,
      hgender, hrp, hsp⟩ :=
    (recognized_track_identity_frozen strec inprec none 0 trec rfl).1 rfl
  rw [halk]
  exact ⟨by rw [Option.map_some', hname], by rw [Option.map_some', hscore],
    by rw [Option.map_some', hrec], by rw [Option.map_some', hage], hrp⟩

end FaceDetection

